import Mathlib

/-!
Verification of the dynamic schema-inference and bulk-load pipeline of the
Proyect_databrick backend (FastAPI + Databricks service layer).

The Python source is shallowly embedded:

* Python strings handled by the name-sanitizer are modelled as lists of
  Unicode code points (`List Nat`), so that the Unicode-aware behaviour of
  `str.lower`, `re \w`, `re \s` and `str.isdigit` can be captured by
  arithmetic on code points.  The character-class functions below are exact
  for the ASCII and Latin-1 ranges (code points < 256), which is the range
  exercised by every concrete input in this file; code points at and above
  256 are conservatively treated as non-word, non-space characters.
* Byte buffers are `List Nat` (one entry per byte).
* Floating point numbers never influence control flow in the verified
  fragment; wall-clock durations are modelled as exact rationals.
* Network effects (executing an INSERT against the warehouse) are modelled
  by a Boolean oracle indexed by chunk offset, attempt number and the SQL
  text, mirroring the fact that success of `execute_query` depends on the
  external engine, not on the statement text computed here.
-/

namespace Databrick

/-! ## Character classes (Python semantics on code points, exact below 256)

`pyLower` is `str.lower` : ASCII uppercase and the Latin-1 uppercase block
C0..DE (minus the multiplication sign D7) move down by 32.
`pyIsWordCp` is the character class of `re \w` (Unicode alphanumerics and
the underscore), `pyIsSpaceCp` the class of `re \s` / `str.strip`, and
`pyIsDigitCp` is `str.isdigit`.  -/

def pyLower (n : Nat) : Nat :=
  if 65 ≤ n ∧ n ≤ 90 then n + 32
  else if 192 ≤ n ∧ n ≤ 222 ∧ n ≠ 215 then n + 32
  else n

def pyIsWordCp (n : Nat) : Bool :=
  decide ((48 ≤ n ∧ n ≤ 57) ∨ (65 ≤ n ∧ n ≤ 90) ∨ (97 ≤ n ∧ n ≤ 122) ∨
    n = 95 ∨ n = 170 ∨ n = 178 ∨ n = 179 ∨ n = 181 ∨ n = 185 ∨ n = 186 ∨
    (188 ≤ n ∧ n ≤ 190) ∨ (192 ≤ n ∧ n ≤ 214) ∨ (216 ≤ n ∧ n ≤ 246) ∨
    (248 ≤ n ∧ n ≤ 255))

def pyIsSpaceCp (n : Nat) : Bool :=
  decide (n = 32 ∨ (9 ≤ n ∧ n ≤ 13) ∨ (28 ≤ n ∧ n ≤ 31) ∨ n = 133 ∨ n = 160)

def pyIsDigitCp (n : Nat) : Bool :=
  decide ((48 ≤ n ∧ n ≤ 57) ∨ n = 178 ∨ n = 179 ∨ n = 185)

/-- Code points of a Lean string literal (used to write concrete inputs). -/
def codes (s : String) : List Nat :=
  s.toList.map Char.toNat

/-! ## `sanitize_column_name` (databricks_service.py, lines 137-148)

```python
clean = str(column_name).lower().strip()
clean = re.sub(r'[^\w\s]', '_', clean)
clean = re.sub(r'\s+', '_', clean)
clean = re.sub(r'\+', '', clean)
clean = clean.strip('_')
if clean and clean[0].isdigit():
    clean = f'col_{clean}'
return clean if clean else 'unnamed_column'
```
-/

/-- `str.strip()` : drop whitespace from both ends. -/
def stripSp (l : List Nat) : List Nat :=
  ((l.dropWhile pyIsSpaceCp).reverse.dropWhile pyIsSpaceCp).reverse

/-- `re.sub(r'[^\w\s]', '_', s)` : each char that is neither a word char nor
whitespace becomes an underscore (code point 95). -/
def subNonWord (l : List Nat) : List Nat :=
  l.map (fun n => if pyIsWordCp n || pyIsSpaceCp n then n else 95)

/-- `re.sub(r'\s+', '_', s)` : every maximal whitespace run becomes a single
underscore.  The Boolean argument records whether the previous character was
part of a whitespace run. -/
def collapseSp (prev : Bool) : List Nat → List Nat
  | [] => []
  | n :: r =>
      if pyIsSpaceCp n then
        if prev then collapseSp true r else 95 :: collapseSp true r
      else n :: collapseSp false r

/-- `re.sub(r'\+', '', s)` : delete every plus sign (code point 43). -/
def removePlus (l : List Nat) : List Nat :=
  l.filter (fun n => n ≠ 43)

/-- `str.strip('_')` : drop underscores from both ends. -/
def stripUnd (l : List Nat) : List Nat :=
  ((l.dropWhile (fun n => n = 95)).reverse.dropWhile (fun n => n = 95)).reverse

/-- The four `re.sub`/`strip` rewrites of the sanitizer, in source order. -/
def sanitizeCore (s : List Nat) : List Nat :=
  stripUnd (removePlus (collapseSp false (subNonWord (stripSp (s.map pyLower)))))

/-- The sanitizer itself, on code-point lists. -/
def sanitize_column_name (s : List Nat) : List Nat :=
  match sanitizeCore s with
  | [] => codes "unnamed_column"
  | c :: r => if pyIsDigitCp c then codes "col_" ++ (c :: r) else c :: r

/-- `sanitize_table_name` (lines 150-155): strip the known file-name
extensions, then apply the column rule.  Extension stripping is
`str.replace`, i.e. removal of every occurrence of the pattern. -/
def removeAll (pat : List Nat) (l : List Nat) : List Nat :=
  if h : pat = [] then l else
  match l with
  | [] => []
  | c :: r =>
      if pat.isPrefixOf (c :: r) then removeAll pat ((c :: r).drop pat.length)
      else c :: removeAll pat r
termination_by l.length
decreasing_by
  · simp only [List.length_drop, List.length_cons]
    have : 0 < pat.length := List.length_pos.mpr h
    omega
  · simp

def sanitize_table_name (filename : List Nat) : List Nat :=
  sanitize_column_name
    (removeAll (codes ".json")
      (removeAll (codes ".xls")
        (removeAll (codes ".xlsx")
          (removeAll (codes ".CSV") (removeAll (codes ".csv") filename)))))

/-- The storage-identifier shape the specification claims for sanitized
names: non-empty, only `[a-z0-9_]`, not starting with a digit. -/
def isStorageIdent (l : List Nat) : Bool :=
  (!l.isEmpty) &&
  l.all (fun n => decide ((97 ≤ n ∧ n ≤ 122) ∨ (48 ≤ n ∧ n ≤ 57) ∨ n = 95)) &&
  (match l with
   | [] => true
   | c :: _ => decide (¬(48 ≤ c ∧ c ≤ 57)))

/-! ### Facts about the character classes -/

theorem pyLower_idem (n : Nat) : pyLower (pyLower n) = pyLower n := by
  simp only [pyLower]
  split_ifs <;> omega

theorem pyLower_lt_128 {n : Nat} (h : n < 128) : pyLower n < 128 := by
  simp only [pyLower]
  split_ifs <;> omega

theorem word_not_space {n : Nat} (h : pyIsWordCp n = true) : pyIsSpaceCp n = false := by
  simp only [pyIsWordCp, decide_eq_true_eq] at h
  simp only [pyIsSpaceCp, decide_eq_false_iff_not]
  omega

/-! ### Generic trimming lemmas (for `strip()` and `strip('_')`) -/

theorem dropWhile_head_false {p : Nat → Bool} :
    ∀ {l : List Nat} {c : Nat} {r : List Nat}, l.dropWhile p = c :: r → p c = false := by
  intro l
  induction l with
  | nil => intro c r h; simp [List.dropWhile] at h
  | cons a t ih =>
      intro c r h
      rw [List.dropWhile_cons] at h
      by_cases hp : p a
      · simp only [hp, if_true] at h
        exact ih h
      · simp only [hp, if_false] at h
        cases h
        simpa using hp

theorem dropWhile_self_of_head {p : Nat → Bool} {c : Nat} {r : List Nat}
    (h : p c = false) : (c :: r).dropWhile p = c :: r := by
  rw [List.dropWhile_cons, h]
  simp

theorem dropWhile_idem (p : Nat → Bool) (l : List Nat) :
    (l.dropWhile p).dropWhile p = l.dropWhile p := by
  cases h : l.dropWhile p with
  | nil => simp
  | cons c r => exact dropWhile_self_of_head (dropWhile_head_false h)

theorem mem_of_mem_dropWhile {p : Nat → Bool} :
    ∀ {l : List Nat} {x : Nat}, x ∈ l.dropWhile p → x ∈ l := by
  intro l
  induction l with
  | nil => simp [List.dropWhile]
  | cons a t ih =>
      intro x hx
      rw [List.dropWhile_cons] at hx
      by_cases hp : p a
      · rw [if_pos hp] at hx
        exact List.mem_cons_of_mem _ (ih hx)
      · rw [if_neg hp] at hx
        exact hx

theorem dropWhile_eq_self_of_all {p : Nat → Bool} {l : List Nat}
    (h : ∀ x ∈ l, p x = false) : l.dropWhile p = l := by
  cases l with
  | nil => simp
  | cons c r => exact dropWhile_self_of_head (h c (List.mem_cons_self c r))

/-- `stripUnd`/`stripSp` share this shape. -/
def trimBoth (p : Nat → Bool) (l : List Nat) : List Nat :=
  ((l.dropWhile p).reverse.dropWhile p).reverse

theorem stripSp_eq_trim (l : List Nat) : stripSp l = trimBoth pyIsSpaceCp l := rfl

theorem stripUnd_eq_trim (l : List Nat) : stripUnd l = trimBoth (fun n => n = 95) l := rfl

theorem mem_of_mem_trimBoth {p : Nat → Bool} {l : List Nat} {x : Nat}
    (h : x ∈ trimBoth p l) : x ∈ l := by
  unfold trimBoth at h
  rw [List.mem_reverse] at h
  have h2 := mem_of_mem_dropWhile h
  rw [List.mem_reverse] at h2
  exact mem_of_mem_dropWhile h2

theorem trimBoth_eq_self {p : Nat → Bool} {l : List Nat}
    (hh : ∀ c r, l = c :: r → p c = false)
    (hl : ∀ c r, l.reverse = c :: r → p c = false) :
    trimBoth p l = l := by
  unfold trimBoth
  cases l with
  | nil => simp
  | cons c r =>
      rw [dropWhile_self_of_head (hh c r rfl)]
      cases hrev : (c :: r).reverse with
      | nil => simp at hrev
      | cons d t =>
          rw [dropWhile_self_of_head (hl d t hrev), ← hrev, List.reverse_reverse]

theorem trimBoth_head_false {p : Nat → Bool} {l : List Nat} {c : Nat} {r : List Nat}
    (h : trimBoth p l = c :: r) : p c = false := by
  unfold trimBoth at h
  have hpre : trimBoth p l <+: l.dropWhile p := by
    unfold trimBoth
    have hsuf : (l.dropWhile p).reverse.dropWhile p <:+ (l.dropWhile p).reverse :=
      List.dropWhile_suffix p
    have := List.reverse_prefix.mpr hsuf
    simpa using this
  rw [trimBoth] at hpre
  rw [h] at hpre
  obtain ⟨t, ht⟩ := hpre
  cases hdw : l.dropWhile p with
  | nil => rw [hdw] at ht; simp at ht
  | cons d u =>
      rw [hdw] at ht
      have : c = d := by
        have := congrArg List.head? ht
        simpa using this
      subst this
      exact dropWhile_head_false hdw

theorem trimBoth_getLast_false {p : Nat → Bool} {l : List Nat} {d : Nat}
    (h : (trimBoth p l).getLast? = some d) : p d = false := by
  unfold trimBoth at h
  rw [List.getLast?_reverse] at h
  cases hdw : (l.dropWhile p).reverse.dropWhile p with
  | nil => rw [hdw] at h; simp at h
  | cons e t =>
      rw [hdw] at h
      simp only [List.head?_cons, Option.some.injEq] at h
      subst h
      exact dropWhile_head_false hdw

/-! ### Behaviour of the substitution passes -/

theorem mem_subNonWord {l : List Nat} {x : Nat} (h : x ∈ subNonWord l) :
    x = 95 ∨ (x ∈ l ∧ (pyIsWordCp x || pyIsSpaceCp x) = true) := by
  unfold subNonWord at h
  rw [List.mem_map] at h
  obtain ⟨n, hn, hx⟩ := h
  by_cases hw : (pyIsWordCp n || pyIsSpaceCp n) = true
  · right
    rw [if_pos hw] at hx
    exact ⟨hx ▸ hn, hx ▸ hw⟩
  · left
    rw [if_neg hw] at hx
    omega

theorem subNonWord_eq_self {l : List Nat} (h : ∀ x ∈ l, pyIsWordCp x = true) :
    subNonWord l = l := by
  unfold subNonWord
  induction l with
  | nil => simp
  | cons a t ih =>
      simp only [List.map_cons, List.cons.injEq]
      constructor
      · rw [h a (List.mem_cons_self a t), Bool.true_or, if_pos rfl]
      · exact ih (fun x hx => h x (List.mem_cons_of_mem a hx))

theorem mem_collapseSp :
    ∀ {l : List Nat} {prev : Bool} {x : Nat}, x ∈ collapseSp prev l →
      x = 95 ∨ (x ∈ l ∧ pyIsSpaceCp x = false) := by
  intro l
  induction l with
  | nil => intro prev x h; simp [collapseSp] at h
  | cons a t ih =>
      intro prev x h
      rw [collapseSp] at h
      by_cases hs : pyIsSpaceCp a
      · rw [if_pos hs] at h
        cases prev with
        | true =>
            rw [if_pos rfl] at h
            rcases ih h with h1 | ⟨h2, h3⟩
            · exact Or.inl h1
            · exact Or.inr ⟨List.mem_cons_of_mem a h2, h3⟩
        | false =>
            rw [if_neg (by simp)] at h
            rw [List.mem_cons] at h
            rcases h with h1 | h1
            · exact Or.inl h1
            · rcases ih h1 with h2 | ⟨h2, h3⟩
              · exact Or.inl h2
              · exact Or.inr ⟨List.mem_cons_of_mem a h2, h3⟩
      · rw [if_neg hs, List.mem_cons] at h
        rcases h with h1 | h1
        · subst h1
          exact Or.inr ⟨List.mem_cons_self x t, by simpa using hs⟩
        · rcases ih h1 with h2 | ⟨h2, h3⟩
          · exact Or.inl h2
          · exact Or.inr ⟨List.mem_cons_of_mem a h2, h3⟩

theorem collapseSp_eq_self {l : List Nat} (h : ∀ x ∈ l, pyIsSpaceCp x = false) :
    ∀ prev, collapseSp prev l = l := by
  induction l with
  | nil => intro prev; rfl
  | cons a t ih =>
      intro prev
      rw [collapseSp, h a (List.mem_cons_self a t)]
      rw [if_neg (by simp)]
      rw [ih (fun x hx => h x (List.mem_cons_of_mem a hx)) false]

theorem mem_removePlus {l : List Nat} {x : Nat} (h : x ∈ removePlus l) : x ∈ l :=
  List.mem_of_mem_filter h

theorem removePlus_eq_self {l : List Nat} (h : ∀ x ∈ l, x ≠ 43) :
    removePlus l = l := by
  unfold removePlus
  rw [List.filter_eq_self]
  intro a ha
  simpa using h a ha

theorem map_pyLower_eq_self {l : List Nat} (h : ∀ x ∈ l, pyLower x = x) :
    l.map pyLower = l := by
  induction l with
  | nil => rfl
  | cons a t ih =>
      simp only [List.map_cons, List.cons.injEq]
      exact ⟨h a (List.mem_cons_self a t), ih (fun x hx => h x (List.mem_cons_of_mem a hx))⟩

/-! ### The output of `sanitizeCore` is made of lowered word characters -/

/-- A code point is *settled* when it is a word character already in lower
case; every character of a sanitized name is settled. -/
def Settled (n : Nat) : Prop := pyIsWordCp n = true ∧ pyLower n = n

theorem settled_95 : Settled 95 := by
  constructor
  · decide
  · decide

theorem sanitizeCore_settled {s : List Nat} : ∀ x ∈ sanitizeCore s, Settled x := by
  intro x hx
  unfold sanitizeCore at hx
  rw [stripUnd_eq_trim] at hx
  have h1 := mem_of_mem_trimBoth hx
  have h2 := mem_removePlus h1
  rcases mem_collapseSp h2 with h3 | ⟨h3, hns⟩
  · exact h3 ▸ settled_95
  rcases mem_subNonWord h3 with h4 | ⟨h4, hws⟩
  · exact h4 ▸ settled_95
  have hword : pyIsWordCp x = true := by
    rcases Bool.or_eq_true_iff.mp hws with h | h
    · exact h
    · rw [h] at hns; cases hns
  refine ⟨hword, ?_⟩
  rw [stripSp_eq_trim] at h4
  have h5 := mem_of_mem_trimBoth h4
  rw [List.mem_map] at h5
  obtain ⟨n, _, hn⟩ := h5
  rw [← hn]
  exact pyLower_idem n

theorem settled_ne_43 {n : Nat} (h : Settled n) : n ≠ 43 := by
  have hw := h.1
  simp only [pyIsWordCp, decide_eq_true_eq] at hw
  omega

/-! ### `sanitizeCore` is the identity on settled, underscore-trimmed lists -/

theorem sanitizeCore_eq_self {l : List Nat}
    (hset : ∀ x ∈ l, Settled x)
    (hh : ∀ c r, l = c :: r → c ≠ 95)
    (hl : ∀ c r, l.reverse = c :: r → c ≠ 95) :
    sanitizeCore l = l := by
  have hword : ∀ x ∈ l, pyIsWordCp x = true := fun x hx => (hset x hx).1
  have hnospace : ∀ x ∈ l, pyIsSpaceCp x = false :=
    fun x hx => word_not_space (hword x hx)
  unfold sanitizeCore
  rw [map_pyLower_eq_self (fun x hx => (hset x hx).2)]
  rw [stripSp_eq_trim, trimBoth_eq_self
    (fun c r hcr => hnospace c (by rw [hcr]; exact List.mem_cons_self c r))
    (fun c r hcr => hnospace c (by
      have hc : c ∈ l.reverse := by rw [hcr]; exact List.mem_cons_self c r
      exact List.mem_reverse.mp hc))]
  rw [subNonWord_eq_self hword]
  rw [collapseSp_eq_self hnospace false]
  rw [removePlus_eq_self (fun x hx => settled_ne_43 (hset x hx))]
  rw [stripUnd_eq_trim, trimBoth_eq_self
    (fun c r hcr => by simpa using hh c r hcr)
    (fun c r hcr => by simpa using hl c r hcr)]

theorem sanitize_eq_of_core_nil {s : List Nat} (h : sanitizeCore s = []) :
    sanitize_column_name s = codes "unnamed_column" := by
  unfold sanitize_column_name
  rw [h]

theorem sanitize_eq_of_core_cons {s : List Nat} {c : Nat} {r : List Nat}
    (h : sanitizeCore s = c :: r) :
    sanitize_column_name s =
      if pyIsDigitCp c then codes "col_" ++ (c :: r) else c :: r := by
  unfold sanitize_column_name
  rw [h]

/-- Lists on which the whole sanitizing pipeline is the identity and whose
head is not a digit are fixed points of `sanitize_column_name`. -/
theorem sanitize_fixed {l : List Nat}
    (hset : ∀ x ∈ l, Settled x)
    (hh : ∀ c r, l = c :: r → c ≠ 95)
    (hl : ∀ c r, l.reverse = c :: r → c ≠ 95)
    (hd : ∀ c r, l = c :: r → pyIsDigitCp c = false)
    (hne : l ≠ []) :
    sanitize_column_name l = l := by
  have hcore : sanitizeCore l = l := sanitizeCore_eq_self hset hh hl
  cases l with
  | nil => exact absurd rfl hne
  | cons c r =>
      rw [sanitize_eq_of_core_cons hcore, hd c r rfl, if_neg (by simp)]

theorem mem_sanitizeCore {s : List Nat} {x : Nat} (h : x ∈ sanitizeCore s) :
    x = 95 ∨ ∃ n ∈ s, x = pyLower n := by
  unfold sanitizeCore at h
  rw [stripUnd_eq_trim] at h
  have h1 := mem_removePlus (mem_of_mem_trimBoth h)
  rcases mem_collapseSp h1 with h2 | ⟨h2, _⟩
  · exact Or.inl h2
  rcases mem_subNonWord h2 with h3 | ⟨h3, _⟩
  · exact Or.inl h3
  right
  rw [stripSp_eq_trim] at h3
  have h4 := mem_of_mem_trimBoth h3
  rw [List.mem_map] at h4
  obtain ⟨n, hn, hx⟩ := h4
  exact ⟨n, hn, hx.symm⟩

theorem settled_ascii {x : Nat} (hs : Settled x) (hx : x < 128) :
    (97 ≤ x ∧ x ≤ 122) ∨ (48 ≤ x ∧ x ≤ 57) ∨ x = 95 := by
  obtain ⟨hw, hl⟩ := hs
  simp only [pyIsWordCp, decide_eq_true_eq] at hw
  simp only [pyLower] at hl
  split_ifs at hl <;> omega

theorem core_head_ne_95 {s : List Nat} {c : Nat} {r : List Nat}
    (h : sanitizeCore s = c :: r) : c ≠ 95 := by
  have h2 : trimBoth (fun n => decide (n = 95))
      (removePlus (collapseSp false (subNonWord (stripSp (s.map pyLower))))) = c :: r := h
  have := trimBoth_head_false h2
  simpa using this

theorem core_getLast_ne_95 {s : List Nat} {d : Nat}
    (h : (sanitizeCore s).getLast? = some d) : d ≠ 95 := by
  have h2 : (trimBoth (fun n => decide (n = 95))
      (removePlus (collapseSp false (subNonWord (stripSp (s.map pyLower)))))).getLast?
      = some d := h
  have := trimBoth_getLast_false h2
  simpa using this

/-- C7: name sanitization is idempotent.  `sanitize(sanitize(x)) ==
sanitize(x)` for every string `x` (strings as code-point lists), where
`sanitize` is `sanitize_column_name`, the single rule used for column names
and, through `sanitize_table_name`, for requested table names. -/
theorem c7_sanitize_idempotent (s : List Nat) :
    sanitize_column_name (sanitize_column_name s) = sanitize_column_name s := by
  cases hc : sanitizeCore s with
  | nil =>
      rw [sanitize_eq_of_core_nil hc]
      decide
  | cons c r =>
      have hset : ∀ x ∈ c :: r, Settled x := by
        rw [← hc]
        exact sanitizeCore_settled
      have hhead : c ≠ 95 := core_head_ne_95 hc
      have hlast : ∀ d, (c :: r).getLast? = some d → d ≠ 95 := by
        intro d hd
        exact core_getLast_ne_95 (by rw [hc]; exact hd)
      have hlrev : ∀ d t, (c :: r).reverse = d :: t → d ≠ 95 := by
        intro d t hrev
        apply hlast
        rw [← List.head?_reverse, hrev]
        rfl
      rw [sanitize_eq_of_core_cons hc]
      by_cases hdig : pyIsDigitCp c
      · rw [if_pos hdig]
        apply sanitize_fixed
        · intro x hx
          rcases List.mem_append.mp hx with h1 | h1
          · have hx4 : x = 99 ∨ x = 111 ∨ x = 108 ∨ x = 95 := by
              simpa [codes] using h1
            rcases hx4 with h | h | h | h <;> subst h <;> exact ⟨by decide, by decide⟩
          · exact hset x h1
        · intro c0 r0 heq
          have hc0 : c0 = 99 := by
            have h2 : (codes "col_" ++ (c :: r)).head? = some c0 := by
              rw [heq]
              rfl
            simpa [codes] using h2.symm
          omega
        · intro d t hrev
          rw [List.reverse_append] at hrev
          cases hcr : (c :: r).reverse with
          | nil => simp at hcr
          | cons e u =>
              rw [hcr, List.cons_append] at hrev
              injection hrev with h1 _
              rw [← h1]
              exact hlrev e u hcr
        · intro c0 r0 heq
          have hc0 : c0 = 99 := by
            have h2 : (codes "col_" ++ (c :: r)).head? = some c0 := by
              rw [heq]
              rfl
            simpa [codes] using h2.symm
          rw [hc0]
          decide
        · simp [codes]
      · rw [if_neg hdig]
        apply sanitize_fixed hset
        · intro c0 r0 heq
          injection heq with h1 _
          rw [← h1]
          exact hhead
        · exact hlrev
        · intro c0 r0 heq
          injection heq with h1 _
          rw [← h1]
          simpa using hdig
        · simp

theorem isStorageIdent_of {l : List Nat} (hne : l ≠ [])
    (hall : ∀ x ∈ l, (97 ≤ x ∧ x ≤ 122) ∨ (48 ≤ x ∧ x ≤ 57) ∨ x = 95)
    (hhead : ∀ c r, l = c :: r → ¬(48 ≤ c ∧ c ≤ 57)) :
    isStorageIdent l = true := by
  unfold isStorageIdent
  cases l with
  | nil => exact absurd rfl hne
  | cons c r =>
      rw [Bool.and_eq_true, Bool.and_eq_true]
      refine ⟨⟨rfl, ?_⟩, ?_⟩
      · rw [List.all_eq_true]
        intro x hx
        rw [decide_eq_true_eq]
        exact hall x hx
      · show decide (¬(48 ≤ c ∧ c ≤ 57)) = true
        rw [decide_eq_true_eq]
        exact hhead c r rfl

/-- C5 counterexample: the sanitizer does **not** always return a
`[a-z0-9_]+` identifier.  Python's `\w` is Unicode-aware, so the Latin-1
letter ñ (U+00F1) survives sanitization: `sanitize_column_name("año")`
returns `"año"`, which fails the claimed `[a-z0-9_]+` shape. -/
theorem c5_counterexample :
    sanitize_column_name (codes "año") = codes "año" ∧
    isStorageIdent (sanitize_column_name (codes "año")) = false := by
  constructor
  · decide
  · decide

/-- C5 amended: for every input consisting of ASCII characters (code points
below 128), the sanitizer returns a valid storage identifier: non-empty,
only `[a-z0-9_]`, and not starting with a digit.  (For general Unicode
input the output can contain non-ASCII word characters, see the
counterexample.) -/
theorem c5_amended_ascii_ident (s : List Nat) (h : ∀ n ∈ s, n < 128) :
    isStorageIdent (sanitize_column_name s) = true := by
  cases hc : sanitizeCore s with
  | nil =>
      rw [sanitize_eq_of_core_nil hc]
      decide
  | cons c r =>
      have hset : ∀ x ∈ c :: r, Settled x := by
        rw [← hc]
        exact sanitizeCore_settled
      have hascii : ∀ x ∈ c :: r, x < 128 := by
        intro x hx
        rw [← hc] at hx
        rcases mem_sanitizeCore hx with h1 | ⟨n, hn, h1⟩
        · omega
        · rw [h1]
          exact pyLower_lt_128 (h n hn)
      have hchars : ∀ x ∈ c :: r, (97 ≤ x ∧ x ≤ 122) ∨ (48 ≤ x ∧ x ≤ 57) ∨ x = 95 :=
        fun x hx => settled_ascii (hset x hx) (hascii x hx)
      rw [sanitize_eq_of_core_cons hc]
      by_cases hdig : pyIsDigitCp c
      · rw [if_pos hdig]
        apply isStorageIdent_of
        · simp [codes]
        · intro x hx
          rcases List.mem_append.mp hx with h1 | h1
          · have hx4 : x = 99 ∨ x = 111 ∨ x = 108 ∨ x = 95 := by
              simpa [codes] using h1
            omega
          · exact hchars x h1
        · intro c0 r0 heq
          have hc0 : c0 = 99 := by
            have h2 : (codes "col_" ++ (c :: r)).head? = some c0 := by
              rw [heq]
              rfl
            simpa [codes] using h2.symm
          omega
      · rw [if_neg hdig]
        apply isStorageIdent_of (by simp) hchars
        intro c0 r0 heq
        injection heq with h1 _
        simp only [pyIsDigitCp, decide_eq_true_eq] at hdig
        omega

/-- Witness for the amended C5 theorem at a concrete ASCII column name. -/
theorem c5_witness :
    (∀ n ∈ codes "2 Age+(years)", n < 128) ∧
    isStorageIdent (sanitize_column_name (codes "2 Age+(years)")) = true :=
  ⟨by decide, c5_amended_ascii_ident (codes "2 Age+(years)") (by decide)⟩

/-! ## CSV delimiter detection (ingestion.py, lines 62-72)

```python
delimiters = {',': n1, ';': n2, '\t': n3, '|': n4}   # counts in the sample
detected = max(delimiters, key=delimiters.get)
```
`max` over the dict returns the first key (in insertion order
`',' ';' '\t' '|'`) attaining the maximal count. -/

def detect_csv_delimiter (sample : List Char) : Char :=
  [';', '\t', '|'].foldl
    (fun best c => if sample.count c > sample.count best then c else best) ','

/-- The sample handed to the detector (ingestion.py, lines 98-101):
`'\n'.join(file_content.decode(encoding).split('\n')[:5])`. -/
def splitNl : List Char → List (List Char)
  | [] => [[]]
  | c :: r =>
      match splitNl r with
      | [] => [[]]
      | h :: t => if c = '\n' then [] :: h :: t else (c :: h) :: t

def joinNl : List (List Char) → List Char
  | [] => []
  | [x] => x
  | x :: y :: t => x ++ '\n' :: joinNl (y :: t)

def firstFiveLines (decoded : String) : List Char :=
  joinNl ((splitNl decoded.toList).take 5)

def csvDelims : List Char := [',', ';', '\t', '|']

def delimPrio (c : Char) : Nat :=
  if c = ',' then 0 else if c = ';' then 1 else if c = '\t' then 2 else 3

/-- C3: on the sample built from the first five decoded lines, the detector
returns a candidate delimiter of maximal occurrence count, ties are broken
by the priority order `',' ';' '\t' '|'`, and consequently a strictly
dominant delimiter is always the one detected. -/
theorem c3_delimiter_detection (decoded : String) :
    detect_csv_delimiter (firstFiveLines decoded) ∈ csvDelims ∧
    (∀ c ∈ csvDelims, (firstFiveLines decoded).count c ≤
        (firstFiveLines decoded).count (detect_csv_delimiter (firstFiveLines decoded))) ∧
    (∀ c ∈ csvDelims, (firstFiveLines decoded).count c =
        (firstFiveLines decoded).count (detect_csv_delimiter (firstFiveLines decoded)) →
        delimPrio (detect_csv_delimiter (firstFiveLines decoded)) ≤ delimPrio c) ∧
    (∀ c ∈ csvDelims,
        (∀ e ∈ csvDelims, e ≠ c →
          (firstFiveLines decoded).count e < (firstFiveLines decoded).count c) →
        detect_csv_delimiter (firstFiveLines decoded) = c) := by
  generalize firstFiveLines decoded = s
  have main : detect_csv_delimiter s ∈ csvDelims ∧
      (∀ c ∈ csvDelims, s.count c ≤ s.count (detect_csv_delimiter s)) ∧
      (∀ c ∈ csvDelims, s.count c = s.count (detect_csv_delimiter s) →
        delimPrio (detect_csv_delimiter s) ≤ delimPrio c) := by
    unfold detect_csv_delimiter
    simp only [List.foldl_cons, List.foldl_nil]
    split_ifs <;>
      refine ⟨by decide, ?_, ?_⟩ <;>
      intro c hc <;>
      simp only [csvDelims, List.mem_cons, List.not_mem_nil, or_false] at hc <;>
      rcases hc with rfl | rfl | rfl | rfl <;>
      first
        | omega
        | exact fun _ => by decide
        | exact fun hcnt => absurd hcnt (by omega)
  refine ⟨main.1, main.2.1, main.2.2, ?_⟩
  intro c hc hdom
  by_contra hne
  have h1 := hdom (detect_csv_delimiter s) main.1 hne
  have h2 := main.2.1 c hc
  omega

/-- Witness for C3 at a concrete semicolon-separated sample. -/
theorem c3_witness :
    detect_csv_delimiter (firstFiveLines "a;b;c\nd;e;f") = ';' :=
  (c3_delimiter_detection "a;b;c\nd;e;f").2.2.2 ';' (by decide) (by decide)

/-! ## Encoding detection (ingestion.py, lines 38-60)

`chardet.detect` is external: its report is modelled as an optional encoding
name plus a confidence (an exact rational standing for the float).  Decoding
success of the four probed codecs: UTF-8 by full validation (overlong forms,
surrogates and values above U+10FFFF rejected, as CPython does); latin-1 and
iso-8859-1 accept every byte; cp1252 rejects exactly the five unmapped bytes
0x81 0x8D 0x8F 0x90 0x9D. -/

def isContB (b : Nat) : Bool := decide (128 ≤ b ∧ b ≤ 191)

def utf8Valid : List Nat → Bool
  | [] => true
  | b :: rest =>
      if b ≤ 127 then utf8Valid rest
      else if b ≤ 193 then false
      else if b ≤ 223 then
        match rest with
        | c :: r => isContB c && utf8Valid r
        | [] => false
      else if b ≤ 239 then
        match rest with
        | c1 :: c2 :: r =>
            (if b = 224 then decide (160 ≤ c1 ∧ c1 ≤ 191)
             else if b = 237 then decide (128 ≤ c1 ∧ c1 ≤ 159)
             else isContB c1) && isContB c2 && utf8Valid r
        | _ => false
      else if b ≤ 244 then
        match rest with
        | c1 :: c2 :: c3 :: r =>
            (if b = 240 then decide (144 ≤ c1 ∧ c1 ≤ 191)
             else if b = 244 then decide (128 ≤ c1 ∧ c1 ≤ 143)
             else isContB c1) && isContB c2 && isContB c3 && utf8Valid r
        | _ => false
      else false

def tryDecode (enc : String) (bs : List Nat) : Bool :=
  if enc = "utf-8" then utf8Valid bs
  else if enc = "latin-1" then true
  else if enc = "iso-8859-1" then true
  else if enc = "cp1252" then
    bs.all (fun b => !(b == 129 || b == 141 || b == 143 || b == 144 || b == 157))
  else false

def fallbackEncodings : List String := ["utf-8", "latin-1", "iso-8859-1", "cp1252"]

def detect_encoding_smart (chardetEncoding : Option String) (chardetConfidence : ℚ)
    (sample : List Nat) : String :=
  if chardetConfidence < 7/10 then
    match fallbackEncodings.find? (fun e => tryDecode e sample) with
    | some e => e
    | none => "latin-1"
  else
    match chardetEncoding with
    | some e => e
    | none => "utf-8"

/-- C4: below the 0.7 confidence threshold the detector probes
`utf-8, latin-1, iso-8859-1, cp1252` in order, returns the first codec that
decodes the sample (utf-8 for valid UTF-8, otherwise latin-1, which accepts
every byte sequence), and the codec it returns always decodes the sample —
so the subsequent decode step cannot fail, whatever bytes the file holds
(in particular for utf-8, latin-1 and cp1252 encoded files).  The function
is total by construction, mirroring the catch-all `except` of the source. -/
theorem c4_low_confidence_fallback (chardetEncoding : Option String)
    (chardetConfidence : ℚ) (sample : List Nat)
    (h : chardetConfidence < 7/10) :
    tryDecode (detect_encoding_smart chardetEncoding chardetConfidence sample) sample = true ∧
    (utf8Valid sample = true →
      detect_encoding_smart chardetEncoding chardetConfidence sample = "utf-8") ∧
    (utf8Valid sample = false →
      detect_encoding_smart chardetEncoding chardetConfidence sample = "latin-1") ∧
    (detect_encoding_smart chardetEncoding chardetConfidence sample ∈ fallbackEncodings) := by
  unfold detect_encoding_smart
  rw [if_pos h]
  cases hu : utf8Valid sample with
  | true =>
      have hfind : fallbackEncodings.find? (fun e => tryDecode e sample) = some "utf-8" := by
        unfold fallbackEncodings
        rw [List.find?_cons_of_pos]
        show tryDecode "utf-8" sample = true
        simpa [tryDecode] using hu
      rw [hfind]
      refine ⟨?_, ?_, ?_, ?_⟩
      · show tryDecode "utf-8" sample = true
        simpa [tryDecode] using hu
      · intro _
        rfl
      · intro hc
        cases hc
      · show ("utf-8" : String) ∈ fallbackEncodings
        simp [fallbackEncodings]
  | false =>
      have hfind : fallbackEncodings.find? (fun e => tryDecode e sample) = some "latin-1" := by
        unfold fallbackEncodings
        rw [List.find?_cons_of_neg, List.find?_cons_of_pos]
        · rfl
        · simp [tryDecode, hu]
      rw [hfind]
      refine ⟨?_, ?_, ?_, ?_⟩
      · rfl
      · intro hc
        cases hc
      · intro _
        rfl
      · show ("latin-1" : String) ∈ fallbackEncodings
        simp [fallbackEncodings]

/-- Witness for C4: zero confidence and a byte that is not valid UTF-8. -/
theorem c4_witness :
    ((0 : ℚ) < 7/10) ∧
    detect_encoding_smart none 0 [255] = "latin-1" ∧
    tryDecode (detect_encoding_smart none 0 [255]) [255] = true := by
  have h := c4_low_confidence_fallback none 0 [255] (by norm_num)
  exact ⟨by norm_num, h.2.2.1 (by decide), h.1⟩

/-! ## SQL type inference (databricks_service.py, lines 157-177)

```python
dtype_str = str(dtype)
non_null_samples = [v for v in sample_values if pd.notna(v)]
if 'int' in dtype_str: return 'BIGINT'
elif 'float' in dtype_str: return 'DOUBLE'
elif 'bool' in dtype_str: return 'BOOLEAN'
elif 'datetime' in dtype_str or 'date' in dtype_str: return 'TIMESTAMP'
else:
    if non_null_samples:
        sample_str = str(non_null_samples[0])
        if re.match(r'\d{4}-\d{2}-\d{2}', sample_str): return 'DATE'
        elif re.match(r'\d{2}/\d{2}/\d{4}', sample_str): return 'DATE'
    return 'STRING'
```
Sample values are modelled as `Option String` (`none` = NaN, `some s` with
`s` the `str()` rendering). -/

/-- Python `needle in hay` on character lists. -/
def containsSeq (needle : List Char) : List Char → Bool
  | [] => needle.isEmpty
  | c :: t => needle.isPrefixOf (c :: t) || containsSeq needle t

def hasSub (hay needle : String) : Bool := containsSeq needle.toList hay.toList

def isDigitCh (c : Char) : Bool := c.isDigit

/-- `re.match(r'\d{4}-\d{2}-\d{2}', s)` : anchored prefix match. -/
def matchYMD (l : List Char) : Bool :=
  match l with
  | a :: b :: c :: d :: s1 :: e :: f :: s2 :: g :: h :: _ =>
      isDigitCh a && isDigitCh b && isDigitCh c && isDigitCh d && (s1 = '-') &&
      isDigitCh e && isDigitCh f && (s2 = '-') && isDigitCh g && isDigitCh h
  | _ => false

/-- `re.match(r'\d{2}/\d{2}/\d{4}', s)` : anchored prefix match. -/
def matchMDY (l : List Char) : Bool :=
  match l with
  | a :: b :: s1 :: c :: d :: s2 :: e :: f :: g :: h :: _ =>
      isDigitCh a && isDigitCh b && (s1 = '/') && isDigitCh c && isDigitCh d &&
      (s2 = '/') && isDigitCh e && isDigitCh f && isDigitCh g && isDigitCh h
  | _ => false

def firstNonNull (sampleValues : List (Option String)) : Option String :=
  (sampleValues.filterMap id).head?

def infer_sql_type (dtypeStr : String) (sampleValues : List (Option String)) : String :=
  if hasSub dtypeStr "int" then "BIGINT"
  else if hasSub dtypeStr "float" then "DOUBLE"
  else if hasSub dtypeStr "bool" then "BOOLEAN"
  else if hasSub dtypeStr "datetime" || hasSub dtypeStr "date" then "TIMESTAMP"
  else
    match firstNonNull sampleValues with
    | some s =>
        if matchYMD s.toList then "DATE"
        else if matchMDY s.toList then "DATE"
        else "STRING"
    | none => "STRING"

/-! The inference cascade the specification describes (modelled from the
spec wording, for comparison with the source function above): every sampled
value an integer literal → Integer; else every value a float literal →
Float; else every value in the boolean literal set → Boolean; else every
value a `YYYY-MM-DD` / `MM/DD/YYYY` date → Date, or Timestamp when a time
component is present; else String. -/

def isIntLit (l : List Char) : Bool :=
  let ds := match l with
    | c :: r => if c = '-' || c = '+' then r else c :: r
    | [] => []
  !ds.isEmpty && ds.all isDigitCh

def isFloatLit (l : List Char) : Bool :=
  let ds := match l with
    | c :: r => if c = '-' || c = '+' then r else c :: r
    | [] => []
  (ds.count '.' ≤ 1) && !(ds.filter (fun c => c ≠ '.')).isEmpty &&
    ds.all (fun c => isDigitCh c || c = '.')

def isBoolLit (l : List Char) : Bool :=
  let low := l.map Char.toLower
  low = "true".toList || low = "false".toList || low = "1".toList || low = "0".toList

def specDateKind (l : List Char) : Option String :=
  if matchYMD l || matchMDY l then
    some (if 10 < l.length then "Timestamp" else "Date")
  else none

/-- The per-column logical-type cascade, as worded by the specification. -/
def specInferLogicalType (sampleValues : List (Option String)) : String :=
  let vs := (sampleValues.filterMap id).map String.toList
  if !vs.isEmpty && vs.all isIntLit then "Integer"
  else if !vs.isEmpty && vs.all isFloatLit then "Float"
  else if !vs.isEmpty && vs.all isBoolLit then "Boolean"
  else if !vs.isEmpty && vs.all (fun l => (specDateKind l).isSome) then
    if vs.any (fun l => specDateKind l = some "Timestamp") then "Timestamp" else "Date"
  else "String"

/-- C2 counterexample: a text column (pandas dtype `object`) whose sampled
values are all integer literals.  The specified cascade infers Integer, but
the source function never parses sampled values as numeric literals — it
looks only at the pandas dtype string and, failing that, at a date-shaped
prefix of the *first* non-null sample — so it returns STRING. -/
theorem c2_counterexample :
    specInferLogicalType [some "1", some "2"] = "Integer" ∧
    infer_sql_type "object" [some "1", some "2"] = "STRING" := by
  constructor
  · decide
  · decide

/-- C2 amended: the inferred type is decided by substring tests on the
pandas dtype string (`int` → BIGINT, else `float` → DOUBLE, else `bool` →
BOOLEAN, else `datetime`/`date` → TIMESTAMP); only for other dtypes is the
sample consulted, and then only the first non-null value: DATE exactly when
that value starts with a `\d{4}-\d{2}-\d{2}` or `\d{2}/\d{2}/\d{4}` prefix
(a time component does not matter and TIMESTAMP is never produced here),
otherwise STRING.  Values beyond the first are never examined. -/
theorem c2_amended_dtype_inference (dtypeStr : String) (sampleValues : List (Option String)) :
    (hasSub dtypeStr "int" = true → infer_sql_type dtypeStr sampleValues = "BIGINT") ∧
    (hasSub dtypeStr "int" = false → hasSub dtypeStr "float" = true →
      infer_sql_type dtypeStr sampleValues = "DOUBLE") ∧
    (hasSub dtypeStr "int" = false → hasSub dtypeStr "float" = false →
      hasSub dtypeStr "bool" = true → infer_sql_type dtypeStr sampleValues = "BOOLEAN") ∧
    (hasSub dtypeStr "int" = false → hasSub dtypeStr "float" = false →
      hasSub dtypeStr "bool" = false →
      (hasSub dtypeStr "datetime" || hasSub dtypeStr "date") = true →
      infer_sql_type dtypeStr sampleValues = "TIMESTAMP") ∧
    (hasSub dtypeStr "int" = false → hasSub dtypeStr "float" = false →
      hasSub dtypeStr "bool" = false → hasSub dtypeStr "datetime" = false →
      hasSub dtypeStr "date" = false →
      ((infer_sql_type dtypeStr sampleValues = "DATE" ↔
          (∃ s, firstNonNull sampleValues = some s ∧
            (matchYMD s.toList || matchMDY s.toList) = true)) ∧
        (infer_sql_type dtypeStr sampleValues = "DATE" ∨
          infer_sql_type dtypeStr sampleValues = "STRING") ∧
        (∀ other : List (Option String), firstNonNull other = firstNonNull sampleValues →
          infer_sql_type dtypeStr other = infer_sql_type dtypeStr sampleValues))) := by
  refine ⟨?_, ?_, ?_, ?_, ?_⟩
  · intro h1
    unfold infer_sql_type
    rw [if_pos h1]
  · intro h1 h2
    unfold infer_sql_type
    rw [if_neg (by rw [h1]; exact Bool.false_ne_true), if_pos h2]
  · intro h1 h2 h3
    unfold infer_sql_type
    rw [if_neg (by rw [h1]; exact Bool.false_ne_true),
      if_neg (by rw [h2]; exact Bool.false_ne_true), if_pos h3]
  · intro h1 h2 h3 h4
    unfold infer_sql_type
    rw [if_neg (by rw [h1]; exact Bool.false_ne_true),
      if_neg (by rw [h2]; exact Bool.false_ne_true),
      if_neg (by rw [h3]; exact Bool.false_ne_true), if_pos h4]
  · intro h1 h2 h3 h4 h5
    have hbranch : ∀ other : List (Option String), infer_sql_type dtypeStr other =
        match firstNonNull other with
        | some s =>
            if matchYMD s.toList then "DATE"
            else if matchMDY s.toList then "DATE"
            else "STRING"
        | none => "STRING" := by
      intro other
      unfold infer_sql_type
      rw [if_neg (by rw [h1]; exact Bool.false_ne_true),
        if_neg (by rw [h2]; exact Bool.false_ne_true),
        if_neg (by rw [h3]; exact Bool.false_ne_true),
        if_neg (by rw [h4, h5]; exact Bool.false_ne_true)]
    refine ⟨?_, ?_, ?_⟩
    · rw [hbranch sampleValues]
      cases hfn : firstNonNull sampleValues with
      | none =>
          dsimp only
          constructor
          · intro hcontra
            exact absurd hcontra (by decide)
          · rintro ⟨s, hs, _⟩
            cases hs
      | some s =>
          dsimp only
          by_cases hy : matchYMD s.toList
          · rw [if_pos hy]
            simp only [true_iff]
            exact ⟨s, rfl, by rw [hy]; rfl⟩
          · rw [if_neg hy]
            by_cases hm : matchMDY s.toList
            · rw [if_pos hm]
              simp only [true_iff]
              exact ⟨s, rfl, by rw [hm]; simp⟩
            · rw [if_neg hm]
              constructor
              · intro hcontra
                exact absurd hcontra (by decide)
              · rintro ⟨t, ht, hmt⟩
                cases ht
                rw [Bool.or_eq_true] at hmt
                rcases hmt with hmt | hmt
                · exact absurd hmt (by simpa using hy)
                · exact absurd hmt (by simpa using hm)
    · rw [hbranch sampleValues]
      cases firstNonNull sampleValues with
      | none => exact Or.inr rfl
      | some s =>
          dsimp only
          by_cases hy : matchYMD s.toList
          · rw [if_pos hy]
            exact Or.inl rfl
          · rw [if_neg hy]
            by_cases hm : matchMDY s.toList
            · rw [if_pos hm]
              exact Or.inl rfl
            · rw [if_neg hm]
              exact Or.inr rfl
    · intro other hother
      rw [hbranch other, hbranch sampleValues, hother]

/-- Witness for the amended C2 theorem: an `int64` column maps to BIGINT,
and an `object` column whose first sample is date-shaped maps to DATE. -/
theorem c2_witness :
    infer_sql_type "int64" [] = "BIGINT" ∧
    infer_sql_type "object" [none, some "2021-01-05", some "x"] = "DATE" := by
  constructor
  · exact (c2_amended_dtype_inference "int64" []).1 (by decide)
  · have h := (c2_amended_dtype_inference "object" [none, some "2021-01-05", some "x"]).2.2.2.2
      (by decide) (by decide) (by decide) (by decide) (by decide)
    exact h.1.mpr ⟨"2021-01-05", by decide, by decide⟩

/-! ## Dynamic table schema (databricks_service.py, lines 297-321)

`create_dynamic_table_from_df` builds one `"{clean_col} {sql_type}"` entry
per source column — `clean_col = sanitize_column_name(col)` with **no**
deduplication — then appends the two system columns. -/

structure DfColumn where
  name : List Nat
  dtypeStr : String
  samples : List (Option String)

def create_dynamic_table_columns (cols : List DfColumn) : List (List Nat × String) :=
  (cols.map (fun c => (sanitize_column_name c.name, infer_sql_type c.dtypeStr c.samples)))
    ++ [(codes "_ingestion_id", "STRING"), (codes "_processed_at", "TIMESTAMP")]

/-- C6 counterexample: the two distinct source columns `"a b"` and `"a_b"`
sanitize to the same name, and the generated schema simply repeats
`a_b` — no numeric suffix is appended, the stored names are not distinct. -/
theorem c6_counterexample :
    codes "a b" ≠ codes "a_b" ∧
    sanitize_column_name (codes "a b") = sanitize_column_name (codes "a_b") ∧
    ¬ ((create_dynamic_table_columns
        [⟨codes "a b", "object", []⟩, ⟨codes "a_b", "object", []⟩]).map Prod.fst).Nodup := by
  refine ⟨by decide, by decide, by decide⟩

/-- C6 amended: when two source columns (at distinct positions) sanitize to
the same name, the provisioning schema contains that stored name twice —
the collision is **not** resolved, no suffix is appended, and the column
list fails to be duplicate-free. -/
theorem c6_amended_collision_duplicates (cols : List DfColumn) (i j : Nat)
    (ci cj : DfColumn) (hij : i < j)
    (hi : cols[i]? = some ci) (hj : cols[j]? = some cj)
    (hcol : sanitize_column_name ci.name = sanitize_column_name cj.name) :
    ¬ ((create_dynamic_table_columns cols).map Prod.fst).Nodup := by
  intro hnodup
  unfold create_dynamic_table_columns at hnodup
  rw [List.map_append, List.map_map] at hnodup
  have hleft := hnodup.of_append_left
  rw [List.nodup_iff_getElem?_ne_getElem?] at hleft
  have hjlen : j < cols.length := by
    by_contra hcon
    rw [List.getElem?_eq_none (Nat.le_of_not_lt hcon)] at hj
    cases hj
  have h2 := hleft i j hij (by rw [List.length_map]; exact hjlen)
  apply h2
  rw [List.getElem?_map, List.getElem?_map, hi, hj]
  simp only [Option.map_some', Function.comp_apply, Option.some.injEq]
  exact hcol

/-- Witness for the amended C6 theorem at a concrete colliding pair. -/
theorem c6_witness :
    ¬ ((create_dynamic_table_columns
        [⟨codes "a-b", "int64", []⟩, ⟨codes "a.b", "int64", []⟩]).map Prod.fst).Nodup :=
  c6_amended_collision_duplicates _ 0 1 ⟨codes "a-b", "int64", []⟩ ⟨codes "a.b", "int64", []⟩
    (by decide) rfl rfl (by decide)

/-! ## Per-cell value conversion (databricks_service.py, lines 493-511)

```python
if pd.isna(val):                values.append('NULL')
elif isinstance(val, bool):     values.append('TRUE' if val else 'FALSE')
elif isinstance(val, (int, float)): values.append(str(val))
elif isinstance(val, datetime): values.append(f"'{val.strftime('%Y-%m-%d %H:%M:%S')}'")
else:
    str_val = str(val).replace("'", "''").replace("\\\\", "\\\\\\\\")
    values.append(f"'{str_val}'")
```
Cells are a tagged union.  A float that is NaN satisfies `pd.isna` and is
therefore the `null` constructor; a non-NaN float is carried together with
its `str()` rendering (its decimal text), which is what the conversion
emits — float formatting itself never branches. -/

inductive Cell where
  | null
  | boolean (b : Bool)
  | integer (n : Int)
  | floating (decimalText : String)
  | timestamp (year month day hour minute second : Nat)
  | text (s : String)

/-- A single-quote character (U+0027) and the string holding just it. -/
def sqChar : Char := Char.ofNat 39

def sq : String := String.singleton sqChar

/-- `"…".replace("'", "''")` on character lists. -/
def escQuotes : List Char → List Char
  | [] => []
  | c :: r => if c = sqChar then sqChar :: sqChar :: escQuotes r else c :: escQuotes r

/-- `….replace("\\", "\\\\")` on character lists (applied second). -/
def escBackslash : List Char → List Char
  | [] => []
  | c :: r => if c = '\\' then '\\' :: '\\' :: escBackslash r else c :: escBackslash r

def pyEscape (s : String) : String :=
  String.mk (escBackslash (escQuotes s.toList))

def pad2 (n : Nat) : String :=
  if n < 10 then "0" ++ toString n else toString n

def pad4 (n : Nat) : String :=
  if n < 10 then "000" ++ toString n
  else if n < 100 then "00" ++ toString n
  else if n < 1000 then "0" ++ toString n
  else toString n

def formatValue : Cell → String
  | .null => "NULL"
  | .boolean b => if b then "TRUE" else "FALSE"
  | .integer n => toString n
  | .floating decimalText => decimalText
  | .timestamp y mo d h mi s =>
      sq ++ pad4 y ++ "-" ++ pad2 mo ++ "-" ++ pad2 d ++ " " ++
        pad2 h ++ ":" ++ pad2 mi ++ ":" ++ pad2 s ++ sq
  | .text s => sq ++ pyEscape s ++ sq

theorem escQuotes_length_ge : ∀ l : List Char, l.length ≤ (escQuotes l).length := by
  intro l
  induction l with
  | nil => simp [escQuotes]
  | cons c r ih =>
      rw [escQuotes]
      by_cases hc : c = sqChar
      · rw [if_pos hc]
        simp only [List.length_cons]
        omega
      · rw [if_neg hc]
        simp only [List.length_cons]
        omega

theorem escBackslash_length_ge : ∀ l : List Char, l.length ≤ (escBackslash l).length := by
  intro l
  induction l with
  | nil => simp [escBackslash]
  | cons c r ih =>
      rw [escBackslash]
      by_cases hc : c = '\\'
      · rw [if_pos hc]
        simp only [List.length_cons]
        omega
      · rw [if_neg hc]
        simp only [List.length_cons]
        omega

theorem escQuotes_count : ∀ l : List Char,
    (escQuotes l).count sqChar = 2 * l.count sqChar := by
  intro l
  induction l with
  | nil => simp [escQuotes]
  | cons c r ih =>
      rw [escQuotes]
      by_cases hc : c = sqChar
      · rw [if_pos hc, hc]
        rw [List.count_cons_self, List.count_cons_self, List.count_cons_self]
        omega
      · rw [if_neg hc]
        rw [List.count_cons_of_ne (Ne.symm hc), List.count_cons_of_ne (Ne.symm hc)]
        exact ih

theorem escBackslash_count_sq : ∀ l : List Char,
    (escBackslash l).count sqChar = l.count sqChar := by
  have hne : sqChar ≠ '\\' := by decide
  intro l
  induction l with
  | nil => simp [escBackslash]
  | cons c r ih =>
      rw [escBackslash]
      by_cases hc : c = '\\'
      · rw [if_pos hc, hc]
        rw [List.count_cons_of_ne hne, List.count_cons_of_ne hne, List.count_cons_of_ne hne]
        exact ih
      · rw [if_neg hc]
        rw [List.count_cons, List.count_cons, ih]

theorem escQuotes_no_quote {l : List Char} (h : ∀ c ∈ l, c ≠ sqChar) :
    escQuotes l = l := by
  induction l with
  | nil => rfl
  | cons c r ih =>
      rw [escQuotes, if_neg (h c (List.mem_cons_self c r)),
        ih (fun x hx => h x (List.mem_cons_of_mem c hx))]

theorem escBackslash_no_bs {l : List Char} (h : ∀ c ∈ l, c ≠ '\\') :
    escBackslash l = l := by
  induction l with
  | nil => rfl
  | cons c r ih =>
      rw [escBackslash, if_neg (h c (List.mem_cons_self c r)),
        ih (fun x hx => h x (List.mem_cons_of_mem c hx))]

/-- C8 counterexample: there is **no** 10,000-character truncation.  For a
10,001-character cell value the emitted literal has 10,003 characters
(value plus the two enclosing quotes), exceeding the 10,002-character bound
the claimed cap would impose. -/
theorem c8_counterexample :
    10002 < (formatValue (Cell.text (String.mk (List.replicate 10001 'a')))).length := by
  have hchar : ∀ c ∈ List.replicate 10001 'a', c = 'a' :=
    fun c hc => List.eq_of_mem_replicate hc
  have h1 : escQuotes (List.replicate 10001 'a') = List.replicate 10001 'a' :=
    escQuotes_no_quote (fun c hc => by rw [hchar c hc]; decide)
  have h2 : escBackslash (List.replicate 10001 'a') = List.replicate 10001 'a' :=
    escBackslash_no_bs (fun c hc => by rw [hchar c hc]; decide)
  have hfmt : formatValue (Cell.text (String.mk (List.replicate 10001 'a')))
      = sq ++ String.mk (List.replicate 10001 'a') ++ sq := by
    show sq ++ pyEscape (String.mk (List.replicate 10001 'a')) ++ sq = _
    unfold pyEscape
    have : (String.mk (List.replicate 10001 'a')).toList = List.replicate 10001 'a' := rfl
    rw [this, h1, h2]
  rw [hfmt]
  rw [String.length_append, String.length_append]
  have hlen : (String.mk (List.replicate 10001 'a')).length = 10001 := by
    show (List.replicate 10001 'a').length = 10001
    rw [List.length_replicate]
  rw [hlen]
  norm_num [sq]

/-- C8 amended: the per-cell conversion is as claimed — null/NaN becomes
`NULL`, booleans become `TRUE`/`FALSE`, integers and floats their numeric
text, timestamps the quoted zero-padded `YYYY-MM-DD HH:MM:SS` form, and any
other value a single-quoted string with quotes doubled and backslashes
escaped — **except** that no truncation of any kind is applied: the escaped
literal is never shorter than the source value. -/
theorem c8_amended_cell_conversion :
    formatValue Cell.null = "NULL" ∧
    (formatValue (Cell.boolean true) = "TRUE" ∧ formatValue (Cell.boolean false) = "FALSE") ∧
    (∀ n : Int, formatValue (Cell.integer n) = toString n) ∧
    (∀ decimalText : String, formatValue (Cell.floating decimalText) = decimalText) ∧
    formatValue (Cell.timestamp 2023 7 5 9 30 7) = sq ++ "2023-07-05 09:30:07" ++ sq ∧
    (∀ s : String, formatValue (Cell.text s) = sq ++ pyEscape s ++ sq ∧
      (pyEscape s).toList.count sqChar = 2 * s.toList.count sqChar ∧
      s.length + 2 ≤ (formatValue (Cell.text s)).length) := by
  refine ⟨rfl, ⟨rfl, rfl⟩, fun n => rfl, fun d => rfl, by decide, fun s => ⟨rfl, ?_, ?_⟩⟩
  · show (escBackslash (escQuotes s.toList)).count sqChar = 2 * s.toList.count sqChar
    rw [escBackslash_count_sq, escQuotes_count]
  · show s.length + 2 ≤ (sq ++ pyEscape s ++ sq).length
    rw [String.length_append, String.length_append]
    have h1 : s.length ≤ (pyEscape s).length := by
      show s.toList.length ≤ (escBackslash (escQuotes s.toList)).length
      calc s.toList.length ≤ (escQuotes s.toList).length := escQuotes_length_ge _
        _ ≤ (escBackslash (escQuotes s.toList)).length := escBackslash_length_ge _
    have h2 : sq.length = 1 := rfl
    omega

/-! ## Batched insert with per-chunk retry
(`_insert_bulk_optimized`, databricks_service.py lines 467-550, and its
caller `insert_dataframe_ultra_fast`, lines 430-465)

The loop `for i in range(0, len(df), 20000)` walks the frame in chunks of
20,000 rows; for every chunk it builds one INSERT statement and executes
it, and on failure disconnects, reconnects and retries that same statement
exactly once; a chunk failing both attempts is skipped and the loop
continues.  Statement execution is the only external effect: it is an
oracle `exec chunkOffset attempt queryText` returning whether the statement
succeeded (an exception corresponds to `false`; the source catches every
exception of both attempts, so the loop itself is total, which the model
reflects by returning a plain result). -/

def valuesRow (row : List Cell) : String :=
  "(" ++ String.intercalate "," (row.map formatValue) ++ ")"

def insertQuery (fullTableName columnNames : String) (chunk : List (List Cell)) : String :=
  "INSERT INTO " ++ fullTableName ++ " (" ++ columnNames ++ ") VALUES " ++
    String.intercalate "," (chunk.map valuesRow)

structure BulkResult where
  total : Nat
  success : Nat
  errors : Int
  table_name : String
  elapsed_seconds : ℚ
  records_per_second : ℚ
  method : String

/-- The chunk loop; `i` is the running offset, `acc` the accumulated
`success_count`. -/
def bulkLoop (exec : Nat → Nat → String → Bool) (fullT cols : String) :
    Nat → List (List Cell) → Nat → Nat
  | _, [], acc => acc
  | i, row :: rest, acc =>
      let chunk := (row :: rest).take 20000
      let q := insertQuery fullT cols chunk
      let acc2 := if exec i 0 q then acc + chunk.length
                  else if exec i 1 q then acc + chunk.length
                  else acc
      bulkLoop exec fullT cols (i + 20000) ((row :: rest).drop 20000) acc2
termination_by _ l => l.length
decreasing_by
  simp only [List.length_drop, List.length_cons]
  omega

/-- Row count of the chunks that failed both attempts (specification
device, same traversal as `bulkLoop`). -/
def failedLoop (exec : Nat → Nat → String → Bool) (fullT cols : String) :
    Nat → List (List Cell) → Nat
  | _, [] => 0
  | i, row :: rest =>
      let chunk := (row :: rest).take 20000
      let q := insertQuery fullT cols chunk
      (if exec i 0 q then 0 else if exec i 1 q then 0 else chunk.length) +
        failedLoop exec fullT cols (i + 20000) ((row :: rest).drop 20000)
termination_by _ l => l.length
decreasing_by
  simp only [List.length_drop, List.length_cons]
  omega

def insert_bulk_optimized (exec : Nat → Nat → String → Bool)
    (full_table_name clean_table_name : String) (dfColumns : List String)
    (dfRows : List (List Cell)) (total_records : Nat) (elapsed : ℚ) : BulkResult :=
  let column_names := String.intercalate ", " dfColumns
  let success_count := bulkLoop exec full_table_name column_names 0 dfRows 0
  { total := total_records
    success := success_count
    errors := (total_records : Int) - (success_count : Int)
    table_name := clean_table_name
    elapsed_seconds := elapsed
    records_per_second := if 0 < elapsed then (success_count : ℚ) / elapsed else 0
    method := "bulk_insert" }

/-- String rendering of a code-point list (for rebuilding a SQL fragment
from a sanitized name). -/
def decodeCodes (l : List Nat) : String :=
  String.mk (l.map Char.ofNat)

/-- `insert_dataframe_ultra_fast`: sanitizes the column labels, appends the
`_ingestion_id` / `_processed_at` metadata cells to every row, and runs the
bulk insert with `total_records = len(df)`. -/
def insert_dataframe_ultra_fast (exec : Nat → Nat → String → Bool)
    (catalogSchema table_name ingestion_id : String) (processedAt : Cell)
    (colNames : List (List Nat)) (rows : List (List Cell)) (elapsed : ℚ) : BulkResult :=
  let df_columns :=
    (colNames.map (fun c => decodeCodes (sanitize_column_name c))) ++
      ["_ingestion_id", "_processed_at"]
  let df_rows := rows.map (fun r => r ++ [Cell.text ingestion_id, processedAt])
  insert_bulk_optimized exec (catalogSchema ++ "." ++ table_name) table_name
    df_columns df_rows rows.length elapsed

/-! ### Loop accounting -/

theorem bulkLoop_add_failedLoop (exec : Nat → Nat → String → Bool) (fullT cols : String) :
    ∀ (n : Nat) (l : List (List Cell)), l.length ≤ n → ∀ (i acc : Nat),
      bulkLoop exec fullT cols i l acc + failedLoop exec fullT cols i l = acc + l.length := by
  intro n
  induction n with
  | zero =>
      intro l hl i acc
      have : l = [] := List.length_eq_zero.mp (Nat.le_zero.mp hl)
      subst this
      simp [bulkLoop, failedLoop]
  | succ m ih =>
      intro l hl i acc
      cases l with
      | nil => simp [bulkLoop, failedLoop]
      | cons row rest =>
          rw [bulkLoop, failedLoop]
          simp only [List.length_cons] at hl
          have hih := ih ((row :: rest).drop 20000)
            (by rw [List.length_drop, List.length_cons]; omega)
            (i + 20000)
          have htake : ((row :: rest).take 20000).length = min 20000 (rest.length + 1) := by
            rw [List.length_take, List.length_cons]
          have hdrop : ((row :: rest).drop 20000).length = rest.length + 1 - 20000 := by
            rw [List.length_drop, List.length_cons]
          by_cases h0 : exec i 0 (insertQuery fullT cols ((row :: rest).take 20000)) = true
          · rw [if_pos h0, if_pos h0]
            have heq := hih (acc + ((row :: rest).take 20000).length)
            rw [List.length_cons]
            omega
          · rw [if_neg h0, if_neg h0]
            by_cases h1 : exec i 1 (insertQuery fullT cols ((row :: rest).take 20000)) = true
            · rw [if_pos h1, if_pos h1]
              have heq := hih (acc + ((row :: rest).take 20000).length)
              rw [List.length_cons]
              omega
            · rw [if_neg h1, if_neg h1]
              have heq := hih acc
              rw [List.length_cons]
              omega

theorem failedLoop_zero (exec : Nat → Nat → String → Bool) (fullT cols : String) :
    ∀ (n : Nat) (l : List (List Cell)), l.length ≤ n → ∀ i : Nat,
      (∀ k q, i ≤ k → exec k 0 q = true) → failedLoop exec fullT cols i l = 0 := by
  intro n
  induction n with
  | zero =>
      intro l hl i _
      have : l = [] := List.length_eq_zero.mp (Nat.le_zero.mp hl)
      subst this
      simp [failedLoop]
  | succ m ih =>
      intro l hl i hok
      cases l with
      | nil => simp [failedLoop]
      | cons row rest =>
          rw [failedLoop]
          rw [if_pos (hok i _ (Nat.le_refl i))]
          rw [Nat.zero_add]
          simp only [List.length_cons] at hl
          exact ih ((row :: rest).drop 20000)
            (by rw [List.length_drop, List.length_cons]; omega)
            (i + 20000)
            (fun k q hk => hok k q (by omega))

theorem failedLoop_single (exec : Nat → Nat → String → Bool) (fullT cols : String)
    (j : Nat)
    (hfail : ∀ q, exec j 0 q = false ∧ exec j 1 q = false)
    (hok : ∀ k q, k ≠ j → exec k 0 q = true) :
    ∀ (n : Nat) (l : List (List Cell)), l.length ≤ n → ∀ i : Nat,
      i % 20000 = 0 → j % 20000 = 0 → i ≤ j → j + 20000 ≤ i + l.length →
      failedLoop exec fullT cols i l = 20000 := by
  intro n
  induction n with
  | zero =>
      intro l hl i _ _ hij hspace
      have : l = [] := List.length_eq_zero.mp (Nat.le_zero.mp hl)
      subst this
      simp only [List.length_nil] at hspace
      omega
  | succ m ih =>
      intro l hl i hi hj hij hspace
      cases l with
      | nil =>
          simp only [List.length_nil] at hspace
          omega
      | cons row rest =>
          rw [failedLoop]
          simp only [List.length_cons] at hl hspace
          by_cases hieqj : i = j
          · subst hieqj
            have hf := hfail (insertQuery fullT cols ((row :: rest).take 20000))
            rw [if_neg (by rw [hf.1]; exact Bool.false_ne_true),
              if_neg (by rw [hf.2]; exact Bool.false_ne_true)]
            have htake : ((row :: rest).take 20000).length = 20000 := by
              rw [List.length_take, List.length_cons]
              omega
            rw [htake]
            rw [failedLoop_zero exec fullT cols ((row :: rest).drop 20000).length _
              (Nat.le_refl _) (i + 20000) (fun k q hk => hok k q (by omega))]
          · have hlt : i < j := Nat.lt_of_le_of_ne hij hieqj
            rw [if_pos (hok i _ hieqj)]
            rw [Nat.zero_add]
            have hstep : i + 20000 ≤ j := by omega
            exact ih ((row :: rest).drop 20000)
              (by rw [List.length_drop, List.length_cons]; omega)
              (i + 20000)
              (by omega) hj hstep
              (by rw [List.length_drop, List.length_cons]; omega)

/-- C1: in the fallback batched-insert path, a chunk whose INSERT fails is
retried exactly once (after reconnecting), a chunk failing both attempts is
counted as failed while the loop continues with the remaining chunks, and
when exactly one full-size chunk permanently fails (e.g. 1 of 10) the
returned result still reports a completed load with
`success = total_rows - chunk_size` (chunk_size = 20000) and a nonzero
error count, instead of the call aborting.  Hypotheses: `j` is a chunk
offset (`j % 20000 = 0`) of a full chunk (`j + 20000 ≤ total`), both
attempts at offset `j` fail, and every other chunk succeeds on its first
attempt. -/
theorem c1_chunk_retry_partial_failure (exec : Nat → Nat → String → Bool)
    (full_table_name clean_table_name : String) (dfColumns : List String)
    (dfRows : List (List Cell)) (elapsed : ℚ) (j : Nat)
    (hoff : j % 20000 = 0)
    (hfull : j + 20000 ≤ dfRows.length)
    (hfail : ∀ q, exec j 0 q = false ∧ exec j 1 q = false)
    (hok : ∀ k q, k ≠ j → exec k 0 q = true) :
    (insert_bulk_optimized exec full_table_name clean_table_name dfColumns dfRows
        dfRows.length elapsed).success = dfRows.length - 20000 ∧
    (insert_bulk_optimized exec full_table_name clean_table_name dfColumns dfRows
        dfRows.length elapsed).errors = 20000 ∧
    (insert_bulk_optimized exec full_table_name clean_table_name dfColumns dfRows
        dfRows.length elapsed).method = "bulk_insert" := by
  have hsum := bulkLoop_add_failedLoop exec full_table_name
    (String.intercalate ", " dfColumns) dfRows.length dfRows (Nat.le_refl _) 0 0
  have hfailed := failedLoop_single exec full_table_name
    (String.intercalate ", " dfColumns) j hfail hok dfRows.length dfRows
    (Nat.le_refl _) 0 (by decide) hoff (Nat.zero_le j) (by omega)
  have hsuccess : bulkLoop exec full_table_name
      (String.intercalate ", " dfColumns) 0 dfRows 0 = dfRows.length - 20000 := by
    omega
  refine ⟨hsuccess, ?_, rfl⟩
  show (dfRows.length : Int) - (bulkLoop exec full_table_name
      (String.intercalate ", " dfColumns) 0 dfRows 0 : Nat) = 20000
  rw [hsuccess]
  omega

/-- Witness for C1: 200,000 rows (ten full chunks), the chunk at offset
60000 failing both attempts, every other chunk succeeding. -/
theorem c1_witness :
    (60000 % 20000 = 0) ∧
    (60000 + 20000 ≤ (List.replicate 200000 ([] : List Cell)).length) ∧
    (insert_bulk_optimized (fun i _ _ => decide (i ≠ 60000)) "covid_catalog.covid_schema.t"
        "t" ["c1"] (List.replicate 200000 ([] : List Cell))
        (List.replicate 200000 ([] : List Cell)).length 1).success
      = (List.replicate 200000 ([] : List Cell)).length - 20000 := by
  refine ⟨by decide, ?_, ?_⟩
  · rw [List.length_replicate]
    omega
  · exact (c1_chunk_retry_partial_failure (fun i _ _ => decide (i ≠ 60000))
      "covid_catalog.covid_schema.t" "t" ["c1"] (List.replicate 200000 ([] : List Cell)) 1
      60000 (by decide) (by rw [List.length_replicate]; omega)
      (fun q => ⟨by simp, by simp⟩)
      (fun k q hk => decide_eq_true hk)).1

/-- C10 (implicit invariant): the bulk-insert routine returns normally for
every frame and oracle — even one failing every attempt (all exceptions of
both attempts are caught, which the embedding reflects by being a total
function into `BulkResult`) — and its result always satisfies
`0 ≤ success ≤ total`, `errors = total - success`, and
`records_per_second ≥ 0`, the throughput division being guarded so that a
non-positive elapsed time yields 0. -/
theorem c10_bulk_result_invariants (exec : Nat → Nat → String → Bool)
    (catalogSchema table_name ingestion_id : String) (processedAt : Cell)
    (colNames : List (List Nat)) (rows : List (List Cell)) (elapsed : ℚ) :
    (insert_dataframe_ultra_fast exec catalogSchema table_name ingestion_id processedAt
        colNames rows elapsed).total = rows.length ∧
    (insert_dataframe_ultra_fast exec catalogSchema table_name ingestion_id processedAt
        colNames rows elapsed).success ≤ rows.length ∧
    (insert_dataframe_ultra_fast exec catalogSchema table_name ingestion_id processedAt
        colNames rows elapsed).errors =
      (rows.length : Int) - ((insert_dataframe_ultra_fast exec catalogSchema table_name
        ingestion_id processedAt colNames rows elapsed).success : Nat) ∧
    0 ≤ (insert_dataframe_ultra_fast exec catalogSchema table_name ingestion_id processedAt
        colNames rows elapsed).errors ∧
    0 ≤ (insert_dataframe_ultra_fast exec catalogSchema table_name ingestion_id processedAt
        colNames rows elapsed).records_per_second ∧
    (0 < elapsed ∨ (insert_dataframe_ultra_fast exec catalogSchema table_name ingestion_id
        processedAt colNames rows elapsed).records_per_second = 0) := by
  have hsum := bulkLoop_add_failedLoop exec (catalogSchema ++ "." ++ table_name)
    (String.intercalate ", "
      ((colNames.map (fun c => decodeCodes (sanitize_column_name c))) ++
        ["_ingestion_id", "_processed_at"]))
    (rows.map (fun r => r ++ [Cell.text ingestion_id, processedAt])).length
    (rows.map (fun r => r ++ [Cell.text ingestion_id, processedAt]))
    (Nat.le_refl _) 0 0
  rw [List.length_map] at hsum
  refine ⟨rfl, ?_, rfl, ?_, ?_, ?_⟩
  · show bulkLoop _ _ _ 0 _ 0 ≤ rows.length
    omega
  · show (0 : Int) ≤ (rows.length : Int) - (bulkLoop _ _ _ 0 _ 0 : Nat)
    have : bulkLoop exec (catalogSchema ++ "." ++ table_name)
        (String.intercalate ", "
          ((colNames.map (fun c => decodeCodes (sanitize_column_name c))) ++
            ["_ingestion_id", "_processed_at"])) 0
        (rows.map (fun r => r ++ [Cell.text ingestion_id, processedAt])) 0 ≤ rows.length := by
      omega
    omega
  · show (0 : ℚ) ≤ if 0 < elapsed then _ / elapsed else 0
    by_cases he : 0 < elapsed
    · rw [if_pos he]
      exact div_nonneg (Nat.cast_nonneg _) (le_of_lt he)
    · rw [if_neg he]
  · by_cases he : 0 < elapsed
    · exact Or.inl he
    · refine Or.inr ?_
      show (if 0 < elapsed then _ / elapsed else 0) = 0
      rw [if_neg he]

/-! ## Upload submission (ingestion.py, `validate_schema` lines 22-36 and
`upload_covid_data` lines 194-221)

```python
ingestion_id = crear_id_ingesta()          # line 195 — before any check
... read file into memory ...
is_valid, msg = validate_schema(file.filename, file_size)
if not is_valid:
    raise HTTPException(status_code=400, detail=msg)
```
`os.path.splitext` takes the extension from the last dot of the name,
except that a name consisting of leading dots only has no extension.
Everything after a successful validation (parsing, provisioning, loading,
appending to `uploaded_files_db`) is abstracted by the `proceed` oracle,
which receives the already-generated ingestion id. -/

def splitextExt (l : List Char) : List Char :=
  let afterRev := l.reverse.takeWhile (fun c => c ≠ '.')
  match l.reverse.dropWhile (fun c => c ≠ '.') with
  | [] => []
  | _ :: beforeRev =>
      if beforeRev.reverse.any (fun c => c ≠ '.') then '.' :: afterRev.reverse
      else []

def allowedExtensions : List (List Char) :=
  [".csv".toList, ".xlsx".toList, ".xls".toList, ".json".toList]

def validate_schema (filename : String) (size : Nat) : Bool × String :=
  let ext := (splitextExt filename.toList).map Char.toLower
  if ext ∉ allowedExtensions then
    (false, "Extensión no permitida: " ++ String.mk ext)
  else if 500 * 1024 * 1024 < size then
    (false, "Archivo > 500MB")
  else if size = 0 then
    (false, "Archivo vacío")
  else
    (true, "OK")

inductive UploadResult where
  | rejected (statusCode : Nat) (detail : String)
  | accepted (ingestionId : String) (recordsCount : Nat)
deriving DecidableEq

structure UploadOutcome where
  result : UploadResult
  generatedIds : List String
  registry : List String
deriving DecidableEq

def upload_covid_data (newId : String) (filename : String) (fileSize : Nat)
    (proceed : String → UploadResult × List String) : UploadOutcome :=
  let ingestionId := newId
  let v := validate_schema filename fileSize
  if v.1 = false then
    { result := UploadResult.rejected 400 v.2
      generatedIds := [ingestionId]
      registry := [] }
  else
    { result := (proceed ingestionId).1
      generatedIds := [ingestionId]
      registry := (proceed ingestionId).2 }

/-- C9 counterexample: a `.txt` submission is rejected with HTTP 400, yet
an ingestion id **was** allocated for it — `crear_id_ingesta()` runs at the
top of the handler, before validation — contradicting the claim that no
job identifier ever exists for a rejected submission.  (The id is only
discarded: it is never registered.) -/
theorem c9_counterexample :
    (upload_covid_data "ING-0A1B2C3D" "covid.txt" 1024
        (fun i => (UploadResult.accepted i 0, [i]))).result
      = UploadResult.rejected 400 ("Extensión no permitida: .txt") ∧
    (upload_covid_data "ING-0A1B2C3D" "covid.txt" 1024
        (fun i => (UploadResult.accepted i 0, [i]))).generatedIds = ["ING-0A1B2C3D"] ∧
    (upload_covid_data "ING-0A1B2C3D" "covid.txt" 1024
        (fun i => (UploadResult.accepted i 0, [i]))).generatedIds ≠ [] := by
  refine ⟨by decide, by decide, by decide⟩

/-- C9 amended: a submission whose extension is outside
`{csv, xlsx, xls, json}`, whose size exceeds the 500 MiB ceiling, or whose
size is zero is rejected synchronously with HTTP 400 and the validation
message, **before the job is registered**: nothing is appended to the
upload registry and the downstream pipeline never runs.  An ingestion id is
nevertheless generated first (line 195) — it is discarded, not stored. -/
theorem c9_amended_reject_before_registration (newId filename : String) (size : Nat)
    (proceed : String → UploadResult × List String)
    (h : (splitextExt filename.toList).map Char.toLower ∉ allowedExtensions ∨
      500 * 1024 * 1024 < size ∨ size = 0) :
    (upload_covid_data newId filename size proceed).result
      = UploadResult.rejected 400 (validate_schema filename size).2 ∧
    (upload_covid_data newId filename size proceed).registry = [] ∧
    (upload_covid_data newId filename size proceed).generatedIds = [newId] := by
  have hv : (validate_schema filename size).1 = false := by
    unfold validate_schema
    rcases h with h1 | h2 | h3
    · rw [if_pos h1]
    · by_cases hext : (splitextExt filename.toList).map Char.toLower ∉ allowedExtensions
      · rw [if_pos hext]
      · rw [if_neg hext, if_pos h2]
    · by_cases hext : (splitextExt filename.toList).map Char.toLower ∉ allowedExtensions
      · rw [if_pos hext]
      · rw [if_neg hext]
        by_cases hsz : 500 * 1024 * 1024 < size
        · rw [if_pos hsz]
        · rw [if_neg hsz, if_pos h3]
  unfold upload_covid_data
  rw [if_pos hv]
  exact ⟨rfl, rfl, rfl⟩

/-- Witness for the amended C9 theorem: an empty (zero-byte) CSV file. -/
theorem c9_witness :
    ((splitextExt "empty.csv".toList).map Char.toLower ∉ allowedExtensions ∨
      500 * 1024 * 1024 < 0 ∨ (0 : Nat) = 0) ∧
    (upload_covid_data "ING-11112222" "empty.csv" 0
        (fun i => (UploadResult.accepted i 0, [i]))).result
      = UploadResult.rejected 400 "Archivo vacío" ∧
    (upload_covid_data "ING-11112222" "empty.csv" 0
        (fun i => (UploadResult.accepted i 0, [i]))).registry = [] := by
  have h := c9_amended_reject_before_registration "ING-11112222" "empty.csv" 0
    (fun i => (UploadResult.accepted i 0, [i])) (Or.inr (Or.inr rfl))
  refine ⟨Or.inr (Or.inr rfl), ?_, h.2.1⟩
  rw [h.1]
  decide

end Databrick
